import Mathlib

/-!
# Formal model of `processes/method.py` (DCASE 2020 audio-captioning baseline)

This file gives a shallow embedding of the two core routines of
`processes/method.py` and proves the specified properties about them:

* `_do_training` (lines 171-292): the epoch loop with its improvement test,
  patience counter, checkpointing policy and final best-epoch reload.
  Python floats are modelled as rationals (`ℚ`); the external
  `module_epoch_passing` call is abstracted by a function
  `losses : Nat → ℚ` giving the mean training loss of each epoch, and the
  in-memory model/optimizer parameter state after the optimization pass of
  epoch `e` is abstracted by the label `e : Nat` (the pass itself is an
  external torch computation).  File writes (`torch.save`) are recorded both
  as an event trace and as an association list from file name (inside
  `model_dir`) to saved payload, most recent write first, so that
  `List.lookup` returns the effect of the latest write, as a filesystem does.

* `_decode_outputs` (lines 28-113): decoding of predicted / ground-truth
  token sequences into caption records.  Prediction tensors are modelled as
  lists of per-timestep score rows over an arbitrary linear order `α`
  (Python uses floats; only comparisons matter, because
  `softmax(x).argmax(1) = x.argmax(1)` — softmax is strictly monotone on
  each row).  Python dicts with string keys are modelled as insertion-ordered
  association lists, which matches Python 3.7+ dict semantics including the
  dynamically named `caption_N` fields.  A `ValueError` escaping the call
  (`list.index` on a ground-truth sequence without the end-of-sequence
  token) is modelled by the `PyResult.valueError` constructor.  Logging
  and the `print_to_console` flag only produce log output and are dropped.
-/

namespace Method

/-! ## Checkpoint file names (lines 268, 279-280)

`f'{best_epoch:05d}'` zero-pads the decimal representation to width 5
(longer representations are kept whole). -/

/-- Python `f'{n:05d}'`: decimal digits of `n` left-padded with `'0'` to width 5. -/
def pad5 (n : Nat) : List Char :=
  List.replicate (5 - (Nat.repr n).length) '0' ++ (Nat.repr n).data

/-- Checkpoint name `f'epoch_{best_epoch:05d}_{model_file_name}'` (line 268). -/
def epochFileName (e : Nat) (name : String) : String :=
  ⟨['e', 'p', 'o', 'c', 'h', '_'] ++ pad5 e ++ ['_'] ++ name.data⟩

/-- Checkpoint name `f'latest_{model_file_name}'` (lines 279-280, `save_str = ''`). -/
def latestFileName (name : String) : String :=
  ⟨['l', 'a', 't', 'e', 's', 't', '_'] ++ name.data⟩

/-- Checkpoint name `f'latest_optimizer_{model_file_name}'` (lines 279-280,
`save_str = '_optimizer'`). -/
def latestOptimFileName (name : String) : String :=
  ⟨['l', 'a', 't', 'e', 's', 't', '_', 'o', 'p', 't', 'i', 'm', 'i', 'z',
    'e', 'r', '_'] ++ name.data⟩

/-! ## The training loop `_do_training` (lines 171-292) -/

/-- The settings consumed by `_do_training`:
`settings['training']['nb_epochs']`, `settings['training']['patience']`,
`settings['training']['loss_thr']` and the model file name. -/
structure TrainSettings where
  nbEpochs : Nat
  patience : Nat
  lossThr : ℚ
  modelFileName : String

/-- Observable side effects of one run: `torch.save` calls for model and
optimizer state, and the early-stop log line of lines 284-286. -/
inductive TrEvent where
  | saveModel (fname : String) (state : Nat)
  | saveOptim (fname : String) (state : Nat)
  | stopNotice (patienceCounter : Nat)
  deriving DecidableEq

/-- The mutable state of `_do_training`: the loop variables initialized on
lines 191-195, the saved checkpoint files (most recent write first), and the
label of the in-memory model parameter state. -/
structure TrainState where
  prvTrainingLoss : ℚ
  patienceCounter : Nat
  bestEpoch : Nat
  files : List (String × Nat)
  modelState : Nat
  deriving DecidableEq

/-- Lines 191-195: `prv_training_loss = 1e8`, `patience_counter = 0`,
`best_epoch = 0`; no checkpoint file exists yet. -/
def initState : TrainState :=
  { prvTrainingLoss := 100000000
    patienceCounter := 0
    bestEpoch := 0
    files := []
    modelState := 0 }

/-- One iteration of the `for epoch in range(...)` loop body
(lines 221-286).  The periodic caption decoding of lines 244-257 reads
`output_y_hat`/`output_y` but changes none of the loop variables, so it is
not modelled here.  Event order and file-write order follow the source:
the `epoch_<n>` checkpoint is written inside the improvement branch
(line 268), the two `latest` checkpoints are written afterwards for every
epoch (lines 279-280), and the stop condition is only *logged*
(lines 283-286) — the source contains no `break`. -/
def epochStep (st : TrainSettings) (losses : Nat → ℚ) (e : Nat)
    (s : TrainState) : TrainState × List TrEvent :=
  let trainingLoss := losses e
  -- `module_epoch_passing` (line 227) has updated the model parameters
  let s1 : TrainState := { s with modelState := e }
  let s2 : TrainState :=
    if s1.prvTrainingLoss - trainingLoss > st.lossThr then
      { s1 with
          prvTrainingLoss := trainingLoss
          bestEpoch := e
          files := (epochFileName e st.modelFileName, s1.modelState) :: s1.files
          patienceCounter := 0 }
    else
      { s1 with patienceCounter := s1.patienceCounter + 1 }
  let evImp : List TrEvent :=
    if s1.prvTrainingLoss - trainingLoss > st.lossThr then
      [TrEvent.saveModel (epochFileName e st.modelFileName) s1.modelState]
    else []
  let s3 : TrainState :=
    { s2 with
        files := (latestOptimFileName st.modelFileName, s2.modelState) ::
                 (latestFileName st.modelFileName, s2.modelState) :: s2.files }
  let evLatest : List TrEvent :=
    [TrEvent.saveModel (latestFileName st.modelFileName) s2.modelState,
     TrEvent.saveOptim (latestOptimFileName st.modelFileName) s2.modelState]
  let evStop : List TrEvent :=
    if s3.patienceCounter ≥ st.patience then
      [TrEvent.stopNotice s3.patienceCounter]
    else []
  (s3, evImp ++ evLatest ++ evStop)

/-- The first `n` iterations of the epoch loop, with the accumulated event
trace. -/
def runEpochs (st : TrainSettings) (losses : Nat → ℚ) : Nat → TrainState × List TrEvent
  | 0 => (initState, [])
  | n + 1 =>
    let p := runEpochs st losses n
    let q := epochStep st losses n p.1
    (q.1, p.2 ++ q.2)

/-- The whole loop `for epoch in range(settings['training']['nb_epochs'])`
(line 221): since the stop condition of line 283 only logs, every one of the
`nb_epochs` iterations executes. -/
def doTraining (st : TrainSettings) (losses : Nat → ℚ) : TrainState × List TrEvent :=
  runEpochs st losses st.nbEpochs

/-- The events produced by the loop body of epoch `e` of the run. -/
def epochEvents (st : TrainSettings) (losses : Nat → ℚ) (e : Nat) : List TrEvent :=
  (epochStep st losses e (runEpochs st losses e).1).2

/-- Epoch `e` of the run is classified as an improvement by line 260:
`prv_training_loss - training_loss > loss_thr`. -/
def improving (st : TrainSettings) (losses : Nat → ℚ) (e : Nat) : Prop :=
  (runEpochs st losses e).1.prvTrainingLoss - losses e > st.lossThr

instance (st : TrainSettings) (losses : Nat → ℚ) (e : Nat) :
    Decidable (improving st losses e) := by
  unfold improving; infer_instance

/-- Line 292: after the loop, the model parameter state is replaced by
`torch.load` of the checkpoint tagged with `best_epoch`; `none` models the
`FileNotFoundError` raised when that checkpoint was never written. -/
def trainingResult (st : TrainSettings) (losses : Nat → ℚ) : Option Nat :=
  (doTraining st losses).1.files.lookup
    (epochFileName (doTraining st losses).1.bestEpoch st.modelFileName)

/-! ## The caption decoder `_decode_outputs` (lines 28-113) -/

/-- Result of a Python call that can let a `ValueError` escape. -/
inductive PyResult (α : Type) where
  | ok (val : α)
  | valueError
  deriving DecidableEq

/-- A Python `dict[str, str]` record, as an insertion-ordered association
list (Python 3.7+ dicts preserve insertion order, and the records built here
only ever receive fresh keys). -/
abbrev Rec := List (String × String)

/-- The literal dict key `'file_name'` (lines 86, 89, 93). -/
def fileNameKey : String := ⟨['f', 'i', 'l', 'e', '_', 'n', 'a', 'm', 'e']⟩

/-- The literal dict key `'caption_predicted'` (line 87). -/
def captionPredictedKey : String :=
  ⟨['c', 'a', 'p', 't', 'i', 'o', 'n', '_', 'p', 'r', 'e', 'd', 'i', 'c',
    't', 'e', 'd']⟩

/-- The characters of `'caption_'`, the tag tested by
`i_c.startswith('caption_')` on line 94. -/
def captionTag : List Char := ['c', 'a', 'p', 't', 'i', 'o', 'n', '_']

/-- The dict key `f'caption_{n}'` (lines 90, 95). -/
def capKey (n : Nat) : String := ⟨captionTag ++ (Nat.repr n).data⟩

/-- Line 94: the number of keys of `d` starting with `'caption_'`
(`str.startswith` is list-prefix on the characters). -/
def countCaption (d : Rec) : Nat :=
  (d.filter (fun p => captionTag.isPrefixOf p.1.data)).length

/-- Lines 92-97: scan `captions_gt` for the first record `d` with
`d['file_name'] == f_n`, give it the additional field
`f'caption_{len_captions}'` where `len_captions` is one more than its
current number of `caption_*` fields, and stop (`break`). -/
def addGtCaption (fn gc : String) : List Rec → List Rec
  | [] => []
  | d :: rest =>
    if d.lookup fileNameKey = some fn then
      (d ++ [(capKey (countCaption d + 1), gc)]) :: rest
    else
      d :: addGtCaption fn gc rest

/-- Line 67, `softmax(b_predictions, dim=-1).argmax(1)` for one timestep
row: the index of the first maximal score.  Softmax is strictly increasing
on every row, so taking argmax after softmax equals argmax of the raw
scores; scores are therefore only compared, never combined, and the
embedding is polymorphic over a linear order (`ℚ` models the floats). -/
def argmaxIdx {α : Type} [LinearOrder α] (row : List α) : Nat :=
  match row.max? with
  | some m => row.indexOf m
  | none => 0

/-- Lines 69-70: `[indices_object[i.item()] for i in ...]`.  Token indices
produced by the data pipeline are assumed in-vocabulary (out-of-range
indices would raise `IndexError` in Python; no claim concerns them). -/
def mapTokens (indices : List String) (idxs : List Nat) : List String :=
  idxs.map (fun i => indices.getD i "")

/-- Line 72: `gt_caption[:gt_caption.index(eos_token)]`.  `list.index`
raises `ValueError` when the token is absent, and the exception is not
caught for the ground truth. -/
def truncGt (eos : String) (toks : List String) : PyResult (List String) :=
  if eos ∈ toks then .ok (toks.take (toks.indexOf eos)) else .valueError

/-- Lines 73-76: the same truncation for the prediction, but wrapped in
`try ... except ValueError: pass`, so a missing token leaves the list
untouched. -/
def truncPred (eos : String) (toks : List String) : List String :=
  if eos ∈ toks then toks.take (toks.indexOf eos) else toks

/-- Index (from the left) of the last `'.'` of a name, as Python
`str.rfind('.')` (with `none` for `-1`). -/
def rfindDot : List Char → Option Nat
  | [] => none
  | c :: cs =>
    match rfindDot cs with
    | some i => some (i + 1)
    | none => if c = '.' then some 0 else none

/-- Python `pathlib.PurePath.stem` on the final path component `n`: CPython
computes `i = name.rfind('.')` and returns `name[:i]` when
`0 < i < len(name) - 1`, otherwise the whole name. -/
def stem (n : List Char) : List Char :=
  match rfindDot n with
  | some i => if 0 < i ∧ i < n.length - 1 then n.take i else n
  | none => n

/-- Line 81: `f_n = f_name.stem.split('.')[0]`, acting on the final path
component; `.split('.')[0]` is the part before the first `'.'`. -/
def fileKey (name : List Char) : String :=
  ⟨(stem name).takeWhile (fun c => c ≠ '.')⟩

/-- Lines 67-81 for a single `(gt_words, b_predictions, f_name)` triple:
returns the file key, the predicted caption and the ground-truth caption
(`' '.join(...)` of the truncated token lists), or lets the `ValueError`
of line 72 escape. -/
def itemDecode {α : Type} [LinearOrder α] (indices : List String)
    (eos : String) (pr : List (List α)) (gt : List Nat)
    (fname : List Char) : PyResult (String × String × String) :=
  let predictedWords := pr.map argmaxIdx
  let predictedCaption := mapTokens indices predictedWords
  let gtCaption := mapTokens indices gt
  match truncGt eos gtCaption with
  | .valueError => .valueError
  | .ok gtToks =>
      .ok (fileKey fname,
           String.intercalate " " (truncPred eos predictedCaption),
           String.intercalate " " gtToks)

/-- The `for gt_words, b_predictions, f_name in zip(...)` loop of
lines 65-106 (`zip` stops at the shortest input), threading the
accumulators `captions_pred`, `captions_gt` and `f_names` of lines 58-60. -/
def decodeGo {α : Type} [LinearOrder α] (indices : List String) (eos : String) :
    List (List (List α)) → List (List Nat) → List (List Char) →
    List Rec → List Rec → List String → PyResult (List Rec × List Rec)
  | pr :: prs, gt :: gts, fn :: fns, cp, cg, seen =>
    match itemDecode indices eos pr gt fn with
    | .valueError => .valueError
    | .ok (k, pc, gc) =>
      if k ∉ seen then
        decodeGo indices eos prs gts fns
          (cp ++ [[(fileNameKey, k), (captionPredictedKey, pc)]])
          (cg ++ [[(fileNameKey, k), (capKey 1, gc)]])
          (seen ++ [k])
      else
        decodeGo indices eos prs gts fns cp (addGtCaption k gc cg) seen
  | _, _, _, cp, cg, _ => .ok (cp, cg)

/-- The function `_decode_outputs` (lines 28-113).  `printToConsole` only mirrors log
output (lines 62-63, 105-109) and does not influence the returned pair. -/
def decodeOutputs {α : Type} [LinearOrder α]
    (predictedOutputs : List (List (List α)))
    (groundTruthOutputs : List (List Nat)) (indicesObject : List String)
    (fileNames : List (List Char)) (eosToken : String)
    (printToConsole : Bool) : PyResult (List Rec × List Rec) :=
  decodeGo indicesObject eosToken predictedOutputs groundTruthOutputs
    fileNames [] [] []

/-! ## Specification-side description of the decoder output -/

/-- The distinct members of `l` in order of first appearance; this is the
order in which keys enter the accumulator `f_names`. -/
def firstAppearance : List String → List String
  | [] => []
  | k :: ks => k :: firstAppearance (ks.filter (fun x => x ≠ k))
  termination_by l => l.length
  decreasing_by
    simp only [List.length_cons]
    exact Nat.lt_succ_of_le (List.length_filter_le _ _)

/-- The per-item predicted caption: argmax tokens, truncated at the first
end-of-sequence token when present, joined by spaces. -/
def predCaptionOf {α : Type} [LinearOrder α] (indices : List String)
    (eos : String) (pr : List (List α)) : String :=
  String.intercalate " " (truncPred eos (mapTokens indices (pr.map argmaxIdx)))

/-- The per-item ground-truth caption: mapped tokens before the first
end-of-sequence token, joined by spaces (only meaningful when the token
occurs). -/
def gtCaptionOf (indices : List String) (eos : String) (gt : List Nat) : String :=
  String.intercalate " "
    ((mapTokens indices gt).take ((mapTokens indices gt).indexOf eos))

/-- The decoded `(file key, predicted caption, ground-truth caption)`
triples of the zipped inputs, in input order. -/
def specItems {α : Type} [LinearOrder α] (indices : List String) (eos : String) :
    List (List (List α)) → List (List Nat) → List (List Char) →
    List (String × String × String)
  | pr :: prs, gt :: gts, fn :: fns =>
    (fileKey fn, predCaptionOf indices eos pr, gtCaptionOf indices eos gt) ::
      specItems indices eos prs gts fns
  | _, _, _ => []

/-- The file keys of the zipped inputs, in input order. -/
def usedFileKeys {α : Type} :
    List (List (List α)) → List (List Nat) → List (List Char) → List String
  | _ :: prs, _ :: gts, fn :: fns => fileKey fn :: usedFileKeys prs gts fns
  | _, _, _ => []

/-- The file keys of a list of decoded triples. -/
def histKeys (l : List (String × String × String)) : List String :=
  l.map (fun t => t.1)

/-- The predicted caption of the first triple carrying key `k`. -/
def firstCaption (l : List (String × String × String)) (k : String) : String :=
  match l.find? (fun t => t.1 == k) with
  | some t => t.2.1
  | none => ""

/-- The ground-truth captions of all triples carrying key `k`, in order. -/
def gtCaps (l : List (String × String × String)) (k : String) : List String :=
  (l.filter (fun t => t.1 == k)).map (fun t => t.2.2)

/-- Numbered caption fields `caption_i, caption_{i+1}, ...` for the listed
values. -/
def numberCapsFrom (i : Nat) : List String → List (String × String)
  | [] => []
  | v :: vs => (capKey i, v) :: numberCapsFrom (i + 1) vs

/-- The shape of a ground-truth record: `file_name` first, then
`caption_1 .. caption_k` in order. -/
def gtShape (k : String) (vs : List String) : Rec :=
  (fileNameKey, k) :: numberCapsFrom 1 vs

/-- The predicted-caption records determined by a list of decoded triples. -/
def relCP (l : List (String × String × String)) : List Rec :=
  (firstAppearance (histKeys l)).map
    (fun k => [(fileNameKey, k), (captionPredictedKey, firstCaption l k)])

/-- The ground-truth records determined by a list of decoded triples. -/
def relCG (l : List (String × String × String)) : List Rec :=
  (firstAppearance (histKeys l)).map (fun k => gtShape k (gtCaps l k))

/-! ## Concrete scenarios from the specification -/

/-- Settings for the early-stopping scenario: `nb_epochs = 6`,
`patience = 2`, `loss_thr = 0.01`. -/
def stC1 : TrainSettings := ⟨6, 2, 1/100, "m"⟩

/-- Epoch losses `[10.0, 9.5, 9.48, 9.47, 9.47, 9.47]`. -/
def lossesC1 : Nat → ℚ :=
  fun e => [(10 : ℚ), 19/2, 237/25, 947/100, 947/100, 947/100].getD e 0

/-- Settings for the improvement-test scenario: `loss_thr = 0.01`. -/
def stC2 : TrainSettings := ⟨4, 100, 1/100, "m"⟩

/-- Epoch losses `[10.0, 9.5, 9.48, 9.47]`. -/
def lossesC2 : Nat → ℚ := fun e => [(10 : ℚ), 19/2, 237/25, 947/100].getD e 0

/-- Settings and losses for the C8 witness: two epochs, both improving. -/
def stC8 : TrainSettings := ⟨2, 5, 1/100, "w"⟩

/-- Epoch losses `[10, 9]`. -/
def lossesC8 : Nat → ℚ := fun e => [(10 : ℚ), 9].getD e 0

/-! ## Claims about the training loop -/

/-- C2. In `_do_training`, an epoch is an improvement iff
`prv_training_loss - training_loss > loss_thr` (with the previous loss
initialized to the sentinel `1e8`); an improvement resets the patience
counter to `0`, sets the previous loss to the current loss and the best
epoch to the current epoch; a non-improvement increments the patience
counter by exactly one and leaves previous loss and best epoch unchanged.
With threshold `0.01` and epoch losses `[10.0, 9.5, 9.48, 9.47]`, epochs
0, 1, 2 are improvements, epoch 3 is not, and the patience counter after
each epoch reads `0, 0, 0, 1`. -/
theorem claim_C2 :
    (∀ (st : TrainSettings) (losses : Nat → ℚ) (e : Nat) (s : TrainState),
      ((epochStep st losses e s).1.patienceCounter,
        (epochStep st losses e s).1.prvTrainingLoss,
        (epochStep st losses e s).1.bestEpoch) =
        (if s.prvTrainingLoss - losses e > st.lossThr then (0, losses e, e)
          else (s.patienceCounter + 1, s.prvTrainingLoss, s.bestEpoch))) ∧
    initState.prvTrainingLoss = 100000000 ∧
    (improving stC2 lossesC2 0 ∧ improving stC2 lossesC2 1 ∧
      improving stC2 lossesC2 2 ∧ ¬ improving stC2 lossesC2 3) ∧
    ((runEpochs stC2 lossesC2 1).1.patienceCounter = 0 ∧
      (runEpochs stC2 lossesC2 2).1.patienceCounter = 0 ∧
      (runEpochs stC2 lossesC2 3).1.patienceCounter = 0 ∧
      (runEpochs stC2 lossesC2 4).1.patienceCounter = 1) := by
  refine ⟨fun st losses e s => ?_, rfl, ?_, ?_⟩
  · by_cases h : s.prvTrainingLoss - losses e > st.lossThr <;>
      simp [epochStep, h]
  · refine ⟨?_, ?_, ?_, ?_⟩ <;>
      norm_num [improving, runEpochs, epochStep, initState, stC2, lossesC2,
        List.getD]
  · refine ⟨?_, ?_, ?_, ?_⟩ <;>
      norm_num [runEpochs, epochStep, initState, stC2, lossesC2, List.getD]

/-- C1 (code-bug evidence). In the spec scenario (`patience = 2`,
`loss_thr = 0.01`, losses `[10.0, 9.5, 9.48, 9.47, 9.47, 9.47]`,
`nb_epochs = 6`) the patience counter reaches the patience limit at epoch 4
and the stop notice is logged there, yet epoch 5 still executes — its
unconditional `latest` checkpoint write happens.  The source loop has no
`break`, so the claimed termination of the epoch loop does not occur. -/
theorem claim_C1_code_bug :
    TrEvent.stopNotice 2 ∈ epochEvents stC1 lossesC1 4 ∧
    TrEvent.saveModel (latestFileName "m") 5 ∈ epochEvents stC1 lossesC1 5 := by
  constructor <;>
    norm_num [epochEvents, runEpochs, epochStep, initState, stC1, lossesC1,
      List.getD]

/-! ### Checkpoint file names are distinct -/

theorem epochFileName_ne_latestFileName (e : Nat) (n : String) :
    epochFileName e n ≠ latestFileName n := by
  intro h
  have h2 := congrArg (fun s : String => s.data.head?) h
  simp [epochFileName, latestFileName] at h2

theorem epochFileName_ne_latestOptimFileName (e : Nat) (n : String) :
    epochFileName e n ≠ latestOptimFileName n := by
  intro h
  have h2 := congrArg (fun s : String => s.data.head?) h
  simp [epochFileName, latestOptimFileName] at h2

/-- The events of one epoch: the optional improvement checkpoint, then the
two unconditional `latest` writes, then possibly a stop notice. -/
theorem epochEvents_shape (st : TrainSettings) (losses : Nat → ℚ) (e : Nat) :
    ∃ tail,
      epochEvents st losses e =
        (if improving st losses e then
          [TrEvent.saveModel (epochFileName e st.modelFileName) e] else []) ++
        (TrEvent.saveModel (latestFileName st.modelFileName) e ::
          TrEvent.saveOptim (latestOptimFileName st.modelFileName) e :: tail) ∧
      ∀ x ∈ tail, ∃ pc, x = TrEvent.stopNotice pc := by
  unfold epochEvents epochStep
  by_cases himp : improving st losses e
  · have himp' : (runEpochs st losses e).1.prvTrainingLoss - losses e >
        st.lossThr := himp
    by_cases hstop : (0 : Nat) ≥ st.patience
    · exact ⟨[TrEvent.stopNotice 0], by simp [himp, himp', hstop], by simp⟩
    · exact ⟨[], by simp [himp, himp', hstop], by simp⟩
  · have himp' : ¬ ((runEpochs st losses e).1.prvTrainingLoss - losses e >
        st.lossThr) := himp
    by_cases hstop : (runEpochs st losses e).1.patienceCounter + 1 ≥ st.patience
    · exact ⟨[TrEvent.stopNotice ((runEpochs st losses e).1.patienceCounter + 1)],
        by simp [himp, himp', hstop], by simp⟩
    · exact ⟨[], by simp [himp, himp', hstop], by simp⟩

/-- C7. Every epoch `e` of the run writes the model state to
`latest_<model_file_name>` and the optimizer state to
`latest_optimizer_<model_file_name>`, and it writes a
`epoch_<e zero-padded to 5 digits>_<model_file_name>` checkpoint exactly
when epoch `e` is an improvement. -/
theorem claim_C7 (st : TrainSettings) (losses : Nat → ℚ) (e : Nat)
    (h : e < st.nbEpochs) :
    TrEvent.saveModel (latestFileName st.modelFileName) e ∈
        epochEvents st losses e ∧
    TrEvent.saveOptim (latestOptimFileName st.modelFileName) e ∈
        epochEvents st losses e ∧
    ((∃ v, TrEvent.saveModel (epochFileName e st.modelFileName) v ∈
        epochEvents st losses e) ↔ improving st losses e) := by
  obtain ⟨tail, hev, htail⟩ := epochEvents_shape st losses e
  rw [hev]
  refine ⟨by simp, by simp, ?_, ?_⟩
  · rintro ⟨v, hv⟩
    by_contra hni
    rw [if_neg hni] at hv
    simp only [List.nil_append, List.mem_cons] at hv
    rcases hv with hv | hv | hv
    · exact epochFileName_ne_latestFileName e st.modelFileName
        (TrEvent.saveModel.inj hv).1
    · exact TrEvent.noConfusion hv
    · obtain ⟨pc, hpc⟩ := htail _ hv
      exact TrEvent.noConfusion hpc
  · intro himp
    exact ⟨e, by simp [if_pos himp]⟩

/-- Witness for C7 at a concrete input. -/
theorem claim_C7_witness :
    0 < stC1.nbEpochs ∧
    (TrEvent.saveModel (latestFileName stC1.modelFileName) 0 ∈
        epochEvents stC1 lossesC1 0 ∧
      TrEvent.saveOptim (latestOptimFileName stC1.modelFileName) 0 ∈
        epochEvents stC1 lossesC1 0 ∧
      ((∃ v, TrEvent.saveModel (epochFileName 0 stC1.modelFileName) v ∈
          epochEvents stC1 lossesC1 0) ↔ improving stC1 lossesC1 0)) :=
  ⟨by decide, claim_C7 stC1 lossesC1 0 (by decide)⟩

/-! ### The best-epoch checkpoint -/

/-- If no epoch of the first `n` improves, no `epoch_*` checkpoint exists. -/
theorem runEpochs_lookup_none (st : TrainSettings) (losses : Nat → ℚ) (n : Nat)
    (h : ∀ e, e < n → ¬ improving st losses e) (k : Nat) :
    (runEpochs st losses n).1.files.lookup (epochFileName k st.modelFileName) =
      none := by
  induction n with
  | zero => rfl
  | succ m ih =>
    have hm : ¬ improving st losses m := h m (Nat.lt_succ_self m)
    have hm' : ¬ ((runEpochs st losses m).1.prvTrainingLoss - losses m >
        st.lossThr) := hm
    have ihm := ih (fun e he => h e (Nat.lt_succ_of_lt he))
    simp only [runEpochs, epochStep, if_neg hm', List.lookup]
    rw [beq_eq_false_iff_ne.mpr (epochFileName_ne_latestOptimFileName k _),
      beq_eq_false_iff_ne.mpr (epochFileName_ne_latestFileName k _)]
    exact ihm

/-- If `b` is the most recent improving epoch among the first `n`, then
after those `n` epochs `best_epoch = b` and the `epoch_<b>` checkpoint
holds the model state captured at epoch `b`. -/
theorem runEpochs_lookup_best (st : TrainSettings) (losses : Nat → ℚ)
    (n b : Nat) (hb : b < n) (himp : improving st losses b)
    (hlater : ∀ e, b < e → e < n → ¬ improving st losses e) :
    (runEpochs st losses n).1.bestEpoch = b ∧
    (runEpochs st losses n).1.files.lookup (epochFileName b st.modelFileName) =
      some b := by
  induction n with
  | zero => exact absurd hb (Nat.not_lt_zero b)
  | succ m ih =>
    rcases Nat.lt_succ_iff_lt_or_eq.mp hb with hbm | rfl
    · have hm : ¬ improving st losses m :=
        hlater m hbm (Nat.lt_succ_self m)
      have hm' : ¬ ((runEpochs st losses m).1.prvTrainingLoss - losses m >
          st.lossThr) := hm
      obtain ⟨ihb, ihl⟩ :=
        ih hbm (fun e he hem => hlater e he (Nat.lt_succ_of_lt hem))
      constructor
      · simpa only [runEpochs, epochStep, if_neg hm'] using ihb
      · simp only [runEpochs, epochStep, if_neg hm', List.lookup]
        rw [beq_eq_false_iff_ne.mpr (epochFileName_ne_latestOptimFileName b _),
          beq_eq_false_iff_ne.mpr (epochFileName_ne_latestFileName b _)]
        exact ihl
    · have himp' : (runEpochs st losses b).1.prvTrainingLoss - losses b >
          st.lossThr := himp
      constructor
      · simp [runEpochs, epochStep, if_pos himp']
      · simp only [runEpochs, epochStep, if_pos himp', List.lookup]
        rw [beq_eq_false_iff_ne.mpr (epochFileName_ne_latestOptimFileName b _),
          beq_eq_false_iff_ne.mpr (epochFileName_ne_latestFileName b _),
          beq_self_eq_true]

/-- A nonempty set of improving epochs below `n` has a maximum. -/
theorem exists_max_improving (st : TrainSettings) (losses : Nat → ℚ) (n : Nat)
    (h : ∃ e, e < n ∧ improving st losses e) :
    ∃ b, b < n ∧ improving st losses b ∧
      ∀ e, b < e → e < n → ¬ improving st losses e := by
  induction n with
  | zero => obtain ⟨e, he, _⟩ := h; exact absurd he (Nat.not_lt_zero e)
  | succ m ih =>
    by_cases hm : improving st losses m
    · exact ⟨m, Nat.lt_succ_self m, hm, fun e he hem => absurd he (by omega)⟩
    · obtain ⟨e, he, himp⟩ := h
      have hem : e < m := by
        rcases Nat.lt_succ_iff_lt_or_eq.mp he with h' | rfl
        · exact h'
        · exact absurd himp hm
      obtain ⟨b, hb, hbimp, hblater⟩ := ih ⟨e, hem, himp⟩
      refine ⟨b, Nat.lt_succ_of_lt hb, hbimp, fun e' he' hem' => ?_⟩
      rcases Nat.lt_succ_iff_lt_or_eq.mp hem' with h' | rfl
      · exact hblater e' he' h'
      · exact hm

/-- C8. Whenever `_do_training` returns (the final `torch.load` of
line 292 succeeds), the model parameter state it leaves behind is the one
loaded from the checkpoint tagged with `best_epoch`, i.e. the state
captured at the most recent improving epoch; every epoch of the run after
`best_epoch` was a non-improvement, so all later parameter updates are
discarded. -/
theorem claim_C8 (st : TrainSettings) (losses : Nat → ℚ) (v : Nat)
    (h : trainingResult st losses = some v) :
    v = (doTraining st losses).1.bestEpoch ∧
    improving st losses ((doTraining st losses).1.bestEpoch) ∧
    ∀ e, (doTraining st losses).1.bestEpoch < e → e < st.nbEpochs →
      ¬ improving st losses e := by
  by_cases hex : ∃ e, e < st.nbEpochs ∧ improving st losses e
  · obtain ⟨b, hb, himp, hlater⟩ := exists_max_improving st losses st.nbEpochs hex
    obtain ⟨hbest, hlook⟩ :=
      runEpochs_lookup_best st losses st.nbEpochs b hb himp hlater
    unfold trainingResult doTraining at h
    unfold doTraining
    rw [hbest] at h ⊢
    rw [hlook] at h
    exact ⟨(Option.some.inj h).symm, himp, hlater⟩
  · push_neg at hex
    unfold trainingResult doTraining at h
    rw [runEpochs_lookup_none st losses st.nbEpochs hex
      (runEpochs st losses st.nbEpochs).1.bestEpoch] at h
    exact Option.noConfusion h

/-- Witness for C8 at a concrete input. -/
theorem claim_C8_witness :
    trainingResult stC8 lossesC8 = some 1 ∧
    (1 = (doTraining stC8 lossesC8).1.bestEpoch ∧
      improving stC8 lossesC8 ((doTraining stC8 lossesC8).1.bestEpoch) ∧
      ∀ e, (doTraining stC8 lossesC8).1.bestEpoch < e → e < stC8.nbEpochs →
        ¬ improving stC8 lossesC8 e) := by
  have himp : improving stC8 lossesC8 1 := by
    norm_num [improving, runEpochs, epochStep, initState, stC8, lossesC8,
      List.getD]
  have h : trainingResult stC8 lossesC8 = some 1 := by
    obtain ⟨hbest, hlook⟩ := runEpochs_lookup_best stC8 lossesC8 2 1
      (by norm_num) himp (fun e he1 he2 => absurd he1 (by omega))
    unfold trainingResult doTraining
    have hn : stC8.nbEpochs = 2 := rfl
    rw [hn, hbest, hlook]
  exact ⟨h, claim_C8 stC8 lossesC8 1 h⟩

/-! ## Claims about the caption decoder -/

/-! ### C9: the derived file key -/

theorem rfindDot_getD (n : List Char) (i : Nat) (h : rfindDot n = some i) :
    i < n.length ∧ n.getD i 'x' = '.' := by
  induction n generalizing i with
  | nil => exact Option.noConfusion h
  | cons c cs ih =>
    rw [rfindDot] at h
    cases hr : rfindDot cs with
    | some j =>
      rw [hr] at h
      obtain rfl : j + 1 = i := Option.some.inj h
      obtain ⟨h1, h2⟩ := ih j hr
      exact ⟨Nat.succ_lt_succ h1, h2⟩
    | none =>
      rw [hr] at h
      by_cases hc : c = '.'
      · rw [if_pos hc] at h
        obtain rfl : 0 = i := Option.some.inj h
        exact ⟨Nat.succ_pos _, hc⟩
      · rw [if_neg hc] at h
        exact Option.noConfusion h

theorem takeWhile_take_of_dot (n : List Char) (i : Nat) (h1 : i < n.length)
    (h2 : n.getD i 'x' = '.') :
    (n.take i).takeWhile (fun c => c ≠ '.') =
      n.takeWhile (fun c => c ≠ '.') := by
  induction n generalizing i with
  | nil => exact absurd h1 (Nat.not_lt_zero i)
  | cons c cs ih =>
    cases i with
    | zero =>
      have hc : c = '.' := h2
      simp [List.takeWhile_cons, hc]
    | succ j =>
      by_cases hc : c = '.'
      · simp [List.takeWhile_cons, hc]
      · have h1' : j < cs.length := Nat.lt_of_succ_lt_succ h1
        have h2' : cs.getD j 'x' = '.' := h2
        simp only [List.take_succ_cons, List.takeWhile_cons]
        rw [if_pos (by simpa using hc), if_pos (by simpa using hc),
          ih j h1' h2']

theorem takeWhile_ne_dot_of_not_mem (l : List Char) (hnot : '.' ∉ l) :
    l.takeWhile (fun c => c ≠ '.') = l := by
  induction l with
  | nil => rfl
  | cons c cs ih =>
    have hc : c ≠ '.' := fun h => hnot (h ▸ List.mem_cons_self c cs)
    rw [List.takeWhile_cons, if_pos (by simpa using hc),
      ih (fun h => hnot (List.mem_cons_of_mem c h))]

/-- C9. The file key derived on line 81 equals the file's base name
truncated at its first `'.'`; a base name without a dot is used
unchanged. -/
theorem claim_C9 (name : List Char) :
    fileKey name = ⟨name.takeWhile (fun c => c ≠ '.')⟩ ∧
    ('.' ∉ name → fileKey name = ⟨name⟩) := by
  have h1 : fileKey name = ⟨name.takeWhile (fun c => c ≠ '.')⟩ := by
    cases hr : rfindDot name with
    | none => simp only [fileKey, stem, hr]
    | some i =>
      by_cases hcond : 0 < i ∧ i < name.length - 1
      · simp only [fileKey, stem, hr, if_pos hcond]
        obtain ⟨hlt, hdot⟩ := rfindDot_getD name i hr
        exact congrArg String.mk (takeWhile_take_of_dot name i hlt hdot)
      · simp only [fileKey, stem, hr, if_neg hcond]
  refine ⟨h1, fun hnot => ?_⟩
  rw [h1, takeWhile_ne_dot_of_not_mem name hnot]

/-- Witness for C9 at concrete inputs: `foo.bar.wav → foo`, and a dotless
name is unchanged. -/
theorem claim_C9_witness :
    fileKey ['f', 'o', 'o', '.', 'b', 'a', 'r', '.', 'w', 'a', 'v'] =
      ⟨['f', 'o', 'o']⟩ ∧
    fileKey ['f', 'o', 'o'] = ⟨['f', 'o', 'o']⟩ := by
  constructor
  · rw [(claim_C9 ['f', 'o', 'o', '.', 'b', 'a', 'r', '.', 'w', 'a', 'v']).1]
    decide
  · exact (claim_C9 ['f', 'o', 'o']).2 (by decide)

/-! ### C5: the truncation law -/

theorem take_indexOf_eq_takeWhile (e : String) (l : List String) :
    l.take (l.indexOf e) = l.takeWhile (fun t => t ≠ e) := by
  induction l with
  | nil => rfl
  | cons c rest ih =>
    by_cases hc : c = e
    · subst hc
      simp [List.indexOf_cons, List.takeWhile_cons]
    · have hbeq : (c == e) = false := beq_eq_false_iff_ne.mpr hc
      simp [List.indexOf_cons, List.takeWhile_cons, hbeq, hc, ih]

theorem not_mem_take_indexOf (e : String) (l : List String) :
    e ∉ l.take (l.indexOf e) := by
  rw [take_indexOf_eq_takeWhile]
  intro hmem
  have := List.mem_takeWhile_imp hmem
  simp at this

/-- C5. A ground-truth caption token list (the `.ok` result of the
line-72 truncation) contains neither the end-of-sequence token nor any
token at a position at or after its first occurrence — it is exactly the
prefix before that occurrence.  A predicted caption token list (line 74)
never contains the end-of-sequence token; when the token occurs it is cut
to the same kind of prefix, and only when the token occurs nowhere is the
full sequence kept. -/
theorem claim_C5 (eos : String) (toks : List String) :
    (∀ res, truncGt eos toks = .ok res →
      eos ∉ res ∧ res = toks.take (toks.indexOf eos)) ∧
    eos ∉ truncPred eos toks ∧
    (eos ∈ toks → truncPred eos toks = toks.take (toks.indexOf eos)) ∧
    (eos ∉ toks → truncPred eos toks = toks) := by
  by_cases h : eos ∈ toks
  · refine ⟨fun res hres => ?_, ?_, fun _ => ?_, fun hn => absurd h hn⟩
    · rw [truncGt, if_pos h] at hres
      obtain rfl := (PyResult.ok.inj hres).symm
      exact ⟨not_mem_take_indexOf eos toks, rfl⟩
    · rw [truncPred, if_pos h]
      exact not_mem_take_indexOf eos toks
    · rw [truncPred, if_pos h]
  · refine ⟨fun res hres => ?_, ?_, fun hm => absurd hm h, fun _ => ?_⟩
    · rw [truncGt, if_neg h] at hres
      exact PyResult.noConfusion hres
    · rw [truncPred, if_neg h]
      exact h
    · rw [truncPred, if_neg h]

/-- Witness for C5 at a concrete input. -/
theorem claim_C5_witness :
    ("e" ∈ ["a", "e", "b"] ∧ truncGt "e" ["a", "e", "b"] = .ok ["a"]) ∧
    ("e" ∉ ["a"] ∧ (["a"] : List String) =
        ["a", "e", "b"].take (["a", "e", "b"].indexOf "e")) ∧
    "e" ∉ truncPred "e" ["a", "e", "b"] ∧
    truncPred "e" ["a", "e", "b"] =
      ["a", "e", "b"].take (["a", "e", "b"].indexOf "e") ∧
    truncPred "e" ["a", "b"] = ["a", "b"] :=
  ⟨⟨by decide, by decide⟩,
    (claim_C5 "e" ["a", "e", "b"]).1 ["a"] (by decide),
    (claim_C5 "e" ["a", "e", "b"]).2.1,
    (claim_C5 "e" ["a", "e", "b"]).2.2.1 (by decide),
    (claim_C5 "e" ["a", "b"]).2.2.2 (by decide)⟩

/-! ### C3: missing end-of-sequence tokens -/

/-- If the `j`-th zipped item is the first whose mapped ground-truth
sequence lacks the end-of-sequence token, the whole loop raises
`ValueError`, whatever the accumulators hold. -/
theorem decodeGo_valueError {α : Type} [LinearOrder α] (indices : List String)
    (eos : String) :
    ∀ (j : Nat) (prs : List (List (List α))) (gts : List (List Nat))
      (fns : List (List Char)) (cp cg : List Rec) (seen : List String),
      j < prs.length → j < gts.length → j < fns.length →
      eos ∉ mapTokens indices (gts.getD j []) →
      (∀ i, i < j → eos ∈ mapTokens indices (gts.getD i [])) →
      decodeGo indices eos prs gts fns cp cg seen = .valueError := by
  intro j
  induction j with
  | zero =>
    intro prs gts fns cp cg seen hp hg hf hmem _
    match prs, gts, fns, hp, hg, hf with
    | pr :: prs', gt :: gts', fn :: fns', _, _, _ =>
      have hmem' : eos ∉ mapTokens indices gt := hmem
      simp [decodeGo, itemDecode, truncGt, hmem']
  | succ j ih =>
    intro prs gts fns cp cg seen hp hg hf hmem hpre
    match prs, gts, fns, hp, hg, hf with
    | pr :: prs', gt :: gts', fn :: fns', hp', hg', hf' =>
      have h0 : eos ∈ mapTokens indices gt := by
        simpa using hpre 0 (Nat.succ_pos j)
      have hitem : itemDecode indices eos pr gt fn =
          .ok (fileKey fn, predCaptionOf indices eos pr,
            gtCaptionOf indices eos gt) := by
        simp [itemDecode, truncGt, h0, predCaptionOf, gtCaptionOf]
      have hmem' : eos ∉ mapTokens indices (gts'.getD j []) := by
        simpa using hmem
      have hpre' : ∀ i, i < j → eos ∈ mapTokens indices (gts'.getD i []) := by
        intro i hi
        simpa using hpre (i + 1) (Nat.succ_lt_succ hi)
      have hrec := fun cp' cg' seen' =>
        ih prs' gts' fns' cp' cg' seen'
          (Nat.lt_of_succ_lt_succ hp') (Nat.lt_of_succ_lt_succ hg')
          (Nat.lt_of_succ_lt_succ hf') hmem' hpre'
      simp only [decodeGo, hitem]
      by_cases hk : fileKey fn ∉ seen
      · rw [if_pos hk]; exact hrec _ _ _
      · rw [if_neg hk]; exact hrec _ _ _

/-- C3. If a mapped ground-truth sequence lacks the end-of-sequence
token (and all earlier items have it), the whole `_decode_outputs` call
raises an uncaught `ValueError` (line 72).  If instead only the mapped
predicted sequence lacks the token, the item decodes without error and its
caption joins the full untruncated predicted sequence (lines 73-76). -/
theorem claim_C3 :
    (∀ (α : Type) (inst : LinearOrder α) (indices : List String)
      (eos : String) (prs : List (List (List α))) (gts : List (List Nat))
      (fns : List (List Char)) (c : Bool) (j : Nat),
      j < prs.length → j < gts.length → j < fns.length →
      eos ∉ mapTokens indices (gts.getD j []) →
      (∀ i, i < j → eos ∈ mapTokens indices (gts.getD i [])) →
      decodeOutputs prs gts indices fns eos c = .valueError) ∧
    (∀ (α : Type) (inst : LinearOrder α) (indices : List String)
      (eos : String) (pr : List (List α)) (gt : List Nat) (fn : List Char),
      eos ∈ mapTokens indices gt →
      eos ∉ mapTokens indices (pr.map argmaxIdx) →
      itemDecode indices eos pr gt fn =
        .ok (fileKey fn,
          String.intercalate " " (mapTokens indices (pr.map argmaxIdx)),
          gtCaptionOf indices eos gt)) := by
  constructor
  · intro α inst indices eos prs gts fns c j hp hg hf hmem hpre
    exact decodeGo_valueError indices eos j prs gts fns [] [] [] hp hg hf
      hmem hpre
  · intro α inst indices eos pr gt fn hgt hpred
    simp [itemDecode, truncGt, truncPred, hgt, hpred, gtCaptionOf]

/-- Witness for C3 at concrete inputs. -/
theorem claim_C3_witness :
    decodeOutputs (α := Nat) [[[1]]] [[0]] ["x"] [['a']] "e" false =
      .valueError ∧
    itemDecode (α := Nat) ["x", "e"] "e" [[1, 0]] [0, 1] ['a'] =
      .ok (fileKey ['a'],
        String.intercalate " " (mapTokens ["x", "e"] ([[1, 0]].map argmaxIdx)),
        gtCaptionOf ["x", "e"] "e" [0, 1]) :=
  ⟨claim_C3.1 Nat inferInstance ["x"] "e" [[[1]]] [[0]] [['a']] false 0
      (by decide) (by decide) (by decide) (by decide)
      (fun i hi => absurd hi (Nat.not_lt_zero i)),
    claim_C3.2 Nat inferInstance ["x", "e"] "e" [[1, 0]] [0, 1] ['a']
      (by decide) (by decide)⟩

/-! ### First-appearance order -/

theorem mem_firstAppearance (l : List String) :
    ∀ x, x ∈ firstAppearance l ↔ x ∈ l := by
  induction l using firstAppearance.induct with
  | case1 => simp [firstAppearance]
  | case2 k ks ih =>
    intro x
    rw [firstAppearance]
    by_cases hx : x = k
    · subst hx; simp
    · simp only [List.mem_cons, ih x, List.mem_filter]
      simp [hx]

theorem nodup_firstAppearance (l : List String) :
    (firstAppearance l).Nodup := by
  induction l using firstAppearance.induct with
  | case1 => simp [firstAppearance]
  | case2 k ks ih =>
    rw [firstAppearance]
    refine List.Nodup.cons (fun hk => ?_) ih
    have := (mem_firstAppearance _ k).mp hk
    simp at this

theorem firstAppearance_append (l : List String) :
    ∀ k, firstAppearance (l ++ [k]) =
      if k ∈ l then firstAppearance l else firstAppearance l ++ [k] := by
  induction l using firstAppearance.induct with
  | case1 => intro k; simp [firstAppearance]
  | case2 x xs ih =>
    intro k
    by_cases hk : k = x
    · subst hk
      rw [if_pos (List.mem_cons_self k xs)]
      have : (xs ++ [k]).filter (fun y => y ≠ k) =
          xs.filter (fun y => y ≠ k) := by
        simp [List.filter_append]
      rw [List.cons_append, firstAppearance, this, firstAppearance]
    · have hfil : (xs ++ [k]).filter (fun y => y ≠ x) =
          xs.filter (fun y => y ≠ x) ++ [k] := by
        simp [List.filter_append, hk]
      have hmem : k ∈ xs.filter (fun y => y ≠ x) ↔ k ∈ xs := by
        simp [List.mem_filter, hk]
      rw [List.cons_append, firstAppearance, hfil, ih k, firstAppearance]
      by_cases hin : k ∈ xs
      · rw [if_pos (hmem.mpr hin), if_pos (by simp [hin])]
      · rw [if_neg (fun h => hin (hmem.mp h)),
          if_neg (by simp [hin, hk]), List.cons_append]

/-! ### Record-shape helpers -/

theorem isPrefixOf_append (l r : List Char) : l.isPrefixOf (l ++ r) = true := by
  induction l with
  | nil => simp [List.isPrefixOf]
  | cons c cs ih => simpa [List.isPrefixOf] using ih

theorem captionTag_isPrefixOf_capKey (n : Nat) :
    captionTag.isPrefixOf (capKey n).data = true :=
  isPrefixOf_append captionTag (Nat.repr n).data

theorem countCaption_numberCapsFrom (vs : List String) :
    ∀ i, ((numberCapsFrom i vs).filter
      (fun p => captionTag.isPrefixOf p.1.data)).length = vs.length := by
  induction vs with
  | nil => intro i; rfl
  | cons v vs ih =>
    intro i
    rw [numberCapsFrom, List.filter_cons,
      if_pos (by simpa using captionTag_isPrefixOf_capKey i)]
    simp [ih (i + 1)]

theorem countCaption_gtShape (k : String) (vs : List String) :
    countCaption (gtShape k vs) = vs.length := by
  rw [countCaption, gtShape, List.filter_cons,
    if_neg (by simp [fileNameKey, captionTag, List.isPrefixOf])]
  exact countCaption_numberCapsFrom vs 1

theorem numberCapsFrom_append (g : String) (vs : List String) :
    ∀ i, numberCapsFrom i (vs ++ [g]) =
      numberCapsFrom i vs ++ [(capKey (i + vs.length), g)] := by
  induction vs with
  | nil => intro i; simp [numberCapsFrom]
  | cons v vs ih =>
    intro i
    rw [List.cons_append, numberCapsFrom, ih (i + 1), numberCapsFrom]
    have : i + 1 + vs.length = i + (vs.length + 1) := by omega
    rw [this]
    rfl

theorem gtShape_append (k : String) (vs : List String) (g : String) :
    gtShape k (vs ++ [g]) = gtShape k vs ++ [(capKey (vs.length + 1), g)] := by
  rw [gtShape, gtShape, numberCapsFrom_append g vs 1]
  have : 1 + vs.length = vs.length + 1 := by omega
  rw [this]
  rfl

theorem lookup_gtShape (k : String) (vs : List String) :
    (gtShape k vs).lookup fileNameKey = some k := by
  simp [gtShape, List.lookup]

/-- Applying `addGtCaption` to a list of `gtShape` records with distinct keys
appends a fresh numbered caption field to exactly the record of key `k`. -/
theorem addGtCaption_map (k gc : String) :
    ∀ (ks : List String) (g : String → List String), ks.Nodup → k ∈ ks →
      addGtCaption k gc (ks.map (fun x => gtShape x (g x))) =
        ks.map (fun x => gtShape x (if x = k then g x ++ [gc] else g x)) := by
  intro ks
  induction ks with
  | nil => intro g _ hk; exact absurd hk (List.not_mem_nil k)
  | cons x xs ih =>
    intro g hnd hk
    rw [List.map_cons, List.map_cons, addGtCaption]
    by_cases hx : x = k
    · subst hx
      rw [if_pos (by rw [lookup_gtShape]), if_pos rfl, countCaption_gtShape,
        ← gtShape_append]
      have hnotin : x ∉ xs := (List.nodup_cons.mp hnd).1
      have hmap : xs.map (fun y => gtShape y (if y = x then g y ++ [gc] else g y)) =
          xs.map (fun y => gtShape y (g y)) := by
        refine List.map_congr_left (fun y hy => ?_)
        have hyx : ¬ y = x := fun h => hnotin (h ▸ hy)
        rw [if_neg hyx]
      rw [hmap]
    · have hkxs : k ∈ xs := by
        rcases List.mem_cons.mp hk with h | h
        · exact absurd h.symm hx
        · exact h
      have hlook : ¬ ((gtShape x (g x)).lookup fileNameKey = some k) := by
        rw [lookup_gtShape]
        exact fun h => hx (Option.some.inj h)
      rw [if_neg hlook, ih g (List.nodup_cons.mp hnd).2 hkxs, if_neg hx]

/-! ### How one decoded item changes the describing records -/

theorem find?_key_eq_none (l : List (String × String × String)) (k : String)
    (h : k ∉ histKeys l) : l.find? (fun t => t.1 == k) = none := by
  rw [List.find?_eq_none]
  intro t ht hbeq
  exact h (List.mem_map.mpr ⟨t, ht, beq_iff_eq.mp hbeq⟩)

theorem firstCaption_append_of_mem (l l₂ : List (String × String × String))
    (k : String) (h : k ∈ histKeys l) :
    firstCaption (l ++ l₂) k = firstCaption l k := by
  obtain ⟨t, ht, hkey⟩ := List.mem_map.mp h
  have hsome : (l.find? (fun t => t.1 == k)).isSome := by
    rw [List.find?_isSome]
    exact ⟨t, ht, beq_iff_eq.mpr hkey⟩
  obtain ⟨t', ht'⟩ := Option.isSome_iff_exists.mp hsome
  rw [firstCaption, firstCaption, List.find?_append, ht', Option.or_some]

theorem firstCaption_append_self (l : List (String × String × String))
    (t : String × String × String) (h : t.1 ∉ histKeys l) :
    firstCaption (l ++ [t]) t.1 = t.2.1 := by
  rw [firstCaption, List.find?_append, find?_key_eq_none l t.1 h]
  simp [List.find?_cons, beq_self_eq_true]

theorem gtCaps_append (l l₂ : List (String × String × String)) (k : String) :
    gtCaps (l ++ l₂) k = gtCaps l k ++ gtCaps l₂ k := by
  rw [gtCaps, gtCaps, gtCaps, List.filter_append, List.map_append]

theorem gtCaps_single_ne (t : String × String × String) (k : String)
    (h : ¬ t.1 = k) : gtCaps [t] k = [] := by
  simp [gtCaps, List.filter_cons, beq_eq_false_iff_ne.mpr h]

theorem gtCaps_single_self (t : String × String × String) :
    gtCaps [t] t.1 = [t.2.2] := by
  simp [gtCaps, List.filter_cons]

theorem gtCaps_eq_nil_of_not_mem (l : List (String × String × String))
    (k : String) (h : k ∉ histKeys l) : gtCaps l k = [] := by
  rw [gtCaps]
  have : l.filter (fun t => t.1 == k) = [] := by
    rw [List.filter_eq_nil_iff]
    intro t ht hbeq
    exact h (List.mem_map.mpr ⟨t, ht, beq_iff_eq.mp hbeq⟩)
  rw [this, List.map_nil]

theorem firstAppearance_histKeys_append (hist : List (String × String × String))
    (t : String × String × String) :
    firstAppearance (histKeys (hist ++ [t])) =
      if t.1 ∈ histKeys hist then firstAppearance (histKeys hist)
      else firstAppearance (histKeys hist) ++ [t.1] := by
  rw [histKeys, List.map_append, List.map_cons, List.map_nil,
    ← histKeys, firstAppearance_append]

theorem relCP_append_not_mem (hist : List (String × String × String))
    (t : String × String × String) (h : t.1 ∉ histKeys hist) :
    relCP (hist ++ [t]) =
      relCP hist ++ [[(fileNameKey, t.1), (captionPredictedKey, t.2.1)]] := by
  rw [relCP, relCP, firstAppearance_histKeys_append, if_neg h, List.map_append,
    List.map_cons, List.map_nil]
  congr 1
  · refine List.map_congr_left (fun k' hk' => ?_)
    rw [firstCaption_append_of_mem hist [t] k'
      ((mem_firstAppearance _ k').mp hk')]
  · rw [firstCaption_append_self hist t h]

theorem relCP_append_mem (hist : List (String × String × String))
    (t : String × String × String) (h : t.1 ∈ histKeys hist) :
    relCP (hist ++ [t]) = relCP hist := by
  rw [relCP, relCP, firstAppearance_histKeys_append, if_pos h]
  refine List.map_congr_left (fun k' hk' => ?_)
  rw [firstCaption_append_of_mem hist [t] k'
    ((mem_firstAppearance _ k').mp hk')]

theorem relCG_append_not_mem (hist : List (String × String × String))
    (t : String × String × String) (h : t.1 ∉ histKeys hist) :
    relCG (hist ++ [t]) =
      relCG hist ++ [[(fileNameKey, t.1), (capKey 1, t.2.2)]] := by
  rw [relCG, relCG, firstAppearance_histKeys_append, if_neg h, List.map_append,
    List.map_cons, List.map_nil]
  congr 1
  · refine List.map_congr_left (fun k' hk' => ?_)
    have hk'mem : k' ∈ histKeys hist := (mem_firstAppearance _ k').mp hk'
    have hne : ¬ t.1 = k' := fun he => h (he ▸ hk'mem)
    rw [gtCaps_append, gtCaps_single_ne t k' hne, List.append_nil]
  · rw [gtCaps_append, gtCaps_eq_nil_of_not_mem hist t.1 h, List.nil_append,
      gtCaps_single_self]
    rfl

theorem relCG_append_mem (hist : List (String × String × String))
    (t : String × String × String) (h : t.1 ∈ histKeys hist) :
    relCG (hist ++ [t]) = addGtCaption t.1 t.2.2 (relCG hist) := by
  rw [relCG, relCG, firstAppearance_histKeys_append, if_pos h,
    addGtCaption_map t.1 t.2.2 (firstAppearance (histKeys hist))
      (gtCaps hist) (nodup_firstAppearance _)
      ((mem_firstAppearance _ t.1).mpr h)]
  refine List.map_congr_left (fun k' hk' => ?_)
  by_cases he : k' = t.1
  · subst he
    rw [if_pos rfl, gtCaps_append, gtCaps_single_self]
  · rw [if_neg he, gtCaps_append, gtCaps_single_ne t k' (fun h' => he h'.symm),
      List.append_nil]

/-! ### The decoder loop computes the described records -/

theorem itemDecode_ok {α : Type} [LinearOrder α] (indices : List String)
    (eos : String) (pr : List (List α)) (gt : List Nat) (fn : List Char)
    (t : String × String × String)
    (h : itemDecode indices eos pr gt fn = .ok t) :
    t = (fileKey fn, predCaptionOf indices eos pr,
      gtCaptionOf indices eos gt) := by
  by_cases hm : eos ∈ mapTokens indices gt
  · rw [itemDecode] at h
    simp only [truncGt, if_pos hm] at h
    exact ((PyResult.ok.inj h).symm).trans
      (by rw [predCaptionOf, gtCaptionOf])
  · rw [itemDecode] at h
    simp only [truncGt, if_neg hm] at h
    exact PyResult.noConfusion h

theorem decodeGo_spec {α : Type} [LinearOrder α] (indices : List String)
    (eos : String) :
    ∀ (prs : List (List (List α))) (gts : List (List Nat))
      (fns : List (List Char)) (hist : List (String × String × String))
      (cp cg : List Rec),
      decodeGo indices eos prs gts fns (relCP hist) (relCG hist)
        (firstAppearance (histKeys hist)) = .ok (cp, cg) →
      cp = relCP (hist ++ specItems indices eos prs gts fns) ∧
      cg = relCG (hist ++ specItems indices eos prs gts fns) := by
  intro prs
  induction prs with
  | nil =>
    intro gts fns hist cp cg h
    simp only [decodeGo, PyResult.ok.injEq, Prod.mk.injEq] at h
    simp [specItems, ← h.1, ← h.2]
  | cons pr prs' ih =>
    intro gts fns hist cp cg h
    cases gts with
    | nil =>
      simp only [decodeGo, PyResult.ok.injEq, Prod.mk.injEq] at h
      simp [specItems, ← h.1, ← h.2]
    | cons gt gts' =>
      cases fns with
      | nil =>
        simp only [decodeGo, PyResult.ok.injEq, Prod.mk.injEq] at h
        simp [specItems, ← h.1, ← h.2]
      | cons fn fns' =>
        cases hi : itemDecode indices eos pr gt fn with
        | valueError =>
          simp only [decodeGo, hi] at h
          exact PyResult.noConfusion h
        | ok t =>
          obtain rfl := itemDecode_ok indices eos pr gt fn t hi
          simp only [decodeGo, hi] at h
          rw [specItems, List.append_cons]
          by_cases hk : fileKey fn ∈ histKeys hist
          · have hk1 : (fileKey fn, predCaptionOf indices eos pr,
                gtCaptionOf indices eos gt).1 ∈ histKeys hist := hk
            have hseen : ¬ (fileKey fn ∉ firstAppearance (histKeys hist)) :=
              not_not_intro ((mem_firstAppearance _ (fileKey fn)).mpr hk)
            rw [if_neg hseen] at h
            rw [show addGtCaption (fileKey fn)
                  (gtCaptionOf indices eos gt) (relCG hist) =
                  relCG (hist ++ [(fileKey fn, predCaptionOf indices eos pr,
                    gtCaptionOf indices eos gt)]) from
                (relCG_append_mem hist _ hk1).symm,
              show relCP hist =
                  relCP (hist ++ [(fileKey fn, predCaptionOf indices eos pr,
                    gtCaptionOf indices eos gt)]) from
                (relCP_append_mem hist _ hk1).symm,
              show firstAppearance (histKeys hist) =
                  firstAppearance (histKeys (hist ++
                    [(fileKey fn, predCaptionOf indices eos pr,
                      gtCaptionOf indices eos gt)])) by
                rw [firstAppearance_histKeys_append, if_pos hk1]] at h
            exact ih gts' fns' (hist ++ [_]) cp cg h
          · have hk1 : (fileKey fn, predCaptionOf indices eos pr,
                gtCaptionOf indices eos gt).1 ∉ histKeys hist := hk
            have hseen : fileKey fn ∉ firstAppearance (histKeys hist) :=
              fun hmem => hk ((mem_firstAppearance _ (fileKey fn)).mp hmem)
            rw [if_pos hseen] at h
            rw [show relCP hist ++
                  [[(fileNameKey, fileKey fn),
                    (captionPredictedKey, predCaptionOf indices eos pr)]] =
                  relCP (hist ++ [(fileKey fn, predCaptionOf indices eos pr,
                    gtCaptionOf indices eos gt)]) from
                (relCP_append_not_mem hist _ hk1).symm,
              show relCG hist ++
                  [[(fileNameKey, fileKey fn),
                    (capKey 1, gtCaptionOf indices eos gt)]] =
                  relCG (hist ++ [(fileKey fn, predCaptionOf indices eos pr,
                    gtCaptionOf indices eos gt)]) from
                (relCG_append_not_mem hist _ hk1).symm,
              show firstAppearance (histKeys hist) ++ [fileKey fn] =
                  firstAppearance (histKeys (hist ++
                    [(fileKey fn, predCaptionOf indices eos pr,
                      gtCaptionOf indices eos gt)])) by
                rw [firstAppearance_histKeys_append, if_neg hk1]] at h
            exact ih gts' fns' (hist ++ [_]) cp cg h

/-- The fully specified output of a successful `_decode_outputs` call. -/
theorem decodeOutputs_spec {α : Type} [LinearOrder α] (indices : List String)
    (eos : String) (prs : List (List (List α))) (gts : List (List Nat))
    (fns : List (List Char)) (c : Bool) (cp cg : List Rec)
    (h : decodeOutputs prs gts indices fns eos c = .ok (cp, cg)) :
    cp = relCP (specItems indices eos prs gts fns) ∧
    cg = relCG (specItems indices eos prs gts fns) := by
  have e1 : relCP ([] : List (String × String × String)) = [] := by
    simp [relCP, firstAppearance, histKeys]
  have e2 : relCG ([] : List (String × String × String)) = [] := by
    simp [relCG, firstAppearance, histKeys]
  have e3 : firstAppearance (histKeys ([] : List (String × String × String))) =
      [] := by
    simp [firstAppearance, histKeys]
  have h0 : decodeGo indices eos prs gts fns (relCP []) (relCG [])
      (firstAppearance (histKeys [])) = .ok (cp, cg) := by
    rw [e1, e2, e3]
    exact h
  simpa using decodeGo_spec indices eos prs gts fns [] cp cg h0

theorem lookup_predRec (k pc : String) :
    ([(fileNameKey, k), (captionPredictedKey, pc)] : Rec).lookup fileNameKey =
      some k := by
  simp [List.lookup]

theorem histKeys_specItems {α : Type} [LinearOrder α] (indices : List String)
    (eos : String) :
    ∀ (prs : List (List (List α))) (gts : List (List Nat))
      (fns : List (List Char)),
      histKeys (specItems indices eos prs gts fns) =
        usedFileKeys prs gts fns := by
  intro prs
  induction prs with
  | nil => intro gts fns; simp [specItems, usedFileKeys, histKeys]
  | cons pr prs' ih =>
    intro gts fns
    cases gts with
    | nil => simp [specItems, usedFileKeys, histKeys]
    | cons gt gts' =>
      cases fns with
      | nil => simp [specItems, usedFileKeys, histKeys]
      | cons fn fns' =>
        simp only [specItems, usedFileKeys, histKeys, List.map_cons]
        rw [← histKeys, ih gts' fns']

theorem usedFileKeys_eq_map {α : Type} :
    ∀ (prs : List (List (List α))) (gts : List (List Nat))
      (fns : List (List Char)),
      gts.length = prs.length → prs.length = fns.length →
      usedFileKeys prs gts fns = fns.map fileKey := by
  intro prs
  induction prs with
  | nil =>
    intro gts fns _ h2
    have : fns = [] := List.length_eq_zero.mp (by simpa using h2.symm)
    subst this
    simp [usedFileKeys]
  | cons pr prs' ih =>
    intro gts fns h1 h2
    cases gts with
    | nil => simp at h1
    | cons gt gts' =>
      cases fns with
      | nil => simp at h2
      | cons fn fns' =>
        simp only [usedFileKeys, List.map_cons]
        rw [ih gts' fns' (by simpa using h1) (by simpa using h2)]

theorem firstCaption_getD (l : List (String × String × String)) (k : String)
    (d : String × String × String) (h : k ∈ histKeys l) :
    firstCaption l k = (l.getD ((histKeys l).indexOf k) d).2.1 := by
  induction l with
  | nil => simp [histKeys] at h
  | cons t l ih =>
    by_cases h1 : t.1 = k
    · have hb : (t.1 == k) = true := beq_iff_eq.mpr h1
      have hidx : (histKeys (t :: l)).indexOf k = 0 := by
        simp [histKeys, List.indexOf_cons, hb]
      rw [hidx]
      simp only [firstCaption, List.find?_cons, hb, List.getD_cons_zero]
    · have hk : k ∈ histKeys l := by
        rcases List.mem_cons.mp h with h' | h'
        · exact absurd h'.symm h1
        · exact h'
      have hb : (t.1 == k) = false := beq_eq_false_iff_ne.mpr h1
      have hidx : (histKeys (t :: l)).indexOf k = (histKeys l).indexOf k + 1 := by
        simp [histKeys, List.indexOf_cons, hb]
      rw [hidx]
      simp only [firstCaption, List.find?_cons, hb, List.getD_cons_succ]
      exact ih hk

theorem specItems_getD {α : Type} [LinearOrder α] (indices : List String)
    (eos : String) (d : String × String × String) :
    ∀ (prs : List (List (List α))) (gts : List (List Nat))
      (fns : List (List Char)) (j : Nat),
      j < prs.length → gts.length = prs.length → prs.length = fns.length →
      (specItems indices eos prs gts fns).getD j d =
        (fileKey (fns.getD j []), predCaptionOf indices eos (prs.getD j []),
          gtCaptionOf indices eos (gts.getD j [])) := by
  intro prs
  induction prs with
  | nil => intro gts fns j hj _ _; simp at hj
  | cons pr prs' ih =>
    intro gts fns j hj h1 h2
    cases gts with
    | nil => simp at h1
    | cons gt gts' =>
      cases fns with
      | nil => simp at h2
      | cons fn fns' =>
        cases j with
        | zero => simp [specItems]
        | succ j' =>
          simp only [specItems, List.getD_cons_succ]
          exact ih gts' fns' j' (by simpa using hj) (by simpa using h1)
            (by simpa using h2)

theorem gtCaps_length_count (l : List (String × String × String)) (k : String) :
    (gtCaps l k).length = (histKeys l).count k := by
  rw [gtCaps, List.length_map, ← List.countP_eq_length_filter, histKeys,
    List.count_eq_countP, List.countP_map]
  rfl

/-! ### C10, C6, C4 -/

/-- C10. When `_decode_outputs` returns, the two returned record lists
are index-aligned: equal length, and the records at each index carry the
same `file_name` value. -/
theorem claim_C10 {α : Type} [inst : LinearOrder α] (indices : List String)
    (eos : String) (prs : List (List (List α))) (gts : List (List Nat))
    (fns : List (List Char)) (c : Bool) (cp cg : List Rec)
    (h : decodeOutputs prs gts indices fns eos c = .ok (cp, cg)) :
    cp.length = cg.length ∧
    ∀ i, i < cp.length →
      (cp.getD i []).lookup fileNameKey = (cg.getD i []).lookup fileNameKey := by
  obtain ⟨hcp, hcg⟩ := decodeOutputs_spec indices eos prs gts fns c cp cg h
  subst hcp hcg
  rw [relCP, relCG]
  refine ⟨by simp, fun i hi => ?_⟩
  rw [List.length_map] at hi
  rw [List.getD_eq_getElem _ _ (by simpa using hi),
    List.getD_eq_getElem _ _ (by simpa using hi),
    List.getElem_map, List.getElem_map, lookup_predRec, lookup_gtShape]

/-- Witness for C10 at a concrete input. -/
theorem claim_C10_witness :
    decodeOutputs (α := Nat) [[[1, 0]], [[0, 1]]] [[0, 1], [0, 1]] ["x", "e"]
        [['a', '.', 'w'], ['b', '.', 'w']] "e" false =
      .ok ([[(fileNameKey, ⟨['a']⟩), (captionPredictedKey, "x")],
            [(fileNameKey, ⟨['b']⟩), (captionPredictedKey, "")]],
           [[(fileNameKey, ⟨['a']⟩), (capKey 1, "x")],
            [(fileNameKey, ⟨['b']⟩), (capKey 1, "x")]]) ∧
    ([[(fileNameKey, ⟨['a']⟩), (captionPredictedKey, "x")],
      [(fileNameKey, ⟨['b']⟩), (captionPredictedKey, "")]] : List Rec).length =
      ([[(fileNameKey, ⟨['a']⟩), (capKey 1, "x")],
        [(fileNameKey, ⟨['b']⟩), (capKey 1, "x")]] : List Rec).length ∧
    ∀ i, i < ([[(fileNameKey, ⟨['a']⟩), (captionPredictedKey, "x")],
        [(fileNameKey, ⟨['b']⟩), (captionPredictedKey, "")]] : List Rec).length →
      (([[(fileNameKey, ⟨['a']⟩), (captionPredictedKey, "x")],
          [(fileNameKey, ⟨['b']⟩), (captionPredictedKey, "")]] : List Rec).getD
          i []).lookup fileNameKey =
      (([[(fileNameKey, ⟨['a']⟩), (capKey 1, "x")],
          [(fileNameKey, ⟨['b']⟩), (capKey 1, "x")]] : List Rec).getD
          i []).lookup fileNameKey := by
  have h : decodeOutputs (α := Nat) [[[1, 0]], [[0, 1]]] [[0, 1], [0, 1]]
      ["x", "e"] [['a', '.', 'w'], ['b', '.', 'w']] "e" false =
      .ok ([[(fileNameKey, ⟨['a']⟩), (captionPredictedKey, "x")],
            [(fileNameKey, ⟨['b']⟩), (captionPredictedKey, "")]],
           [[(fileNameKey, ⟨['a']⟩), (capKey 1, "x")],
            [(fileNameKey, ⟨['b']⟩), (capKey 1, "x")]]) := by decide
  exact ⟨h, claim_C10 ["x", "e"] "e" [[[1, 0]], [[0, 1]]] [[0, 1], [0, 1]]
    [['a', '.', 'w'], ['b', '.', 'w']] false _ _ h⟩

/-- C6. `_decode_outputs` is a deterministic function of its inputs,
and both returned record lists are ordered by the first appearance of each
file key in the input order. -/
theorem claim_C6 :
    (∀ (α : Type) (inst : LinearOrder α) (p p' : List (List (List α)))
        (g g' : List (List Nat)) (i i' : List String) (f f' : List (List Char))
        (e e' : String) (c c' : Bool),
      p = p' → g = g' → i = i' → f = f' → e = e' → c = c' →
      decodeOutputs p g i f e c = decodeOutputs p' g' i' f' e' c') ∧
    (∀ (α : Type) (inst : LinearOrder α) (prs : List (List (List α)))
        (gts : List (List Nat)) (indices : List String)
        (fns : List (List Char)) (eos : String) (c : Bool) (cp cg : List Rec),
      decodeOutputs prs gts indices fns eos c = .ok (cp, cg) →
      cp.map (fun d => d.lookup fileNameKey) =
        (firstAppearance (usedFileKeys prs gts fns)).map some ∧
      cg.map (fun d => d.lookup fileNameKey) =
        (firstAppearance (usedFileKeys prs gts fns)).map some) := by
  constructor
  · rintro α inst p p' g g' i i' f f' e e' c c' rfl rfl rfl rfl rfl rfl
    rfl
  · intro α inst prs gts indices fns eos c cp cg h
    obtain ⟨hcp, hcg⟩ := decodeOutputs_spec indices eos prs gts fns c cp cg h
    subst hcp hcg
    rw [relCP, relCG, ← histKeys_specItems indices eos prs gts fns,
      List.map_map, List.map_map]
    constructor <;> refine List.map_congr_left (fun k hk => ?_) <;>
      simp [Function.comp, lookup_predRec, lookup_gtShape]

/-- Witness for C6 at a concrete input. -/
theorem claim_C6_witness :
    decodeOutputs (α := Nat) [[[1, 0]]] [[0, 1]] ["x", "e"] [['a']] "e" false =
      decodeOutputs (α := Nat) [[[1, 0]]] [[0, 1]] ["x", "e"] [['a']] "e"
        false ∧
    decodeOutputs (α := Nat) [[[1, 0]], [[0, 1]], [[1, 0]]]
        [[0, 1], [0, 1], [0, 1]] ["x", "e"]
        [['a', '.', 'w'], ['b', '.', 'w'], ['a', '.', 'v']] "e" false =
      .ok ([[(fileNameKey, ⟨['a']⟩), (captionPredictedKey, "x")],
            [(fileNameKey, ⟨['b']⟩), (captionPredictedKey, "")]],
           [[(fileNameKey, ⟨['a']⟩), (capKey 1, "x"), (capKey 2, "x")],
            [(fileNameKey, ⟨['b']⟩), (capKey 1, "x")]]) ∧
    ([[(fileNameKey, ⟨['a']⟩), (captionPredictedKey, "x")],
      [(fileNameKey, ⟨['b']⟩), (captionPredictedKey, "")]] : List Rec).map
        (fun d => d.lookup fileNameKey) =
      (firstAppearance (usedFileKeys [[[1, 0]], [[0, 1]], [[1, 0]]]
        [[0, 1], [0, 1], [0, 1]]
        [['a', '.', 'w'], ['b', '.', 'w'], ['a', '.', 'v']])).map some ∧
    ([[(fileNameKey, ⟨['a']⟩), (capKey 1, "x"), (capKey 2, "x")],
      [(fileNameKey, ⟨['b']⟩), (capKey 1, "x")]] : List Rec).map
        (fun d => d.lookup fileNameKey) =
      (firstAppearance (usedFileKeys [[[1, 0]], [[0, 1]], [[1, 0]]]
        [[0, 1], [0, 1], [0, 1]]
        [['a', '.', 'w'], ['b', '.', 'w'], ['a', '.', 'v']])).map some := by
  have h : decodeOutputs (α := Nat) [[[1, 0]], [[0, 1]], [[1, 0]]]
      [[0, 1], [0, 1], [0, 1]] ["x", "e"]
      [['a', '.', 'w'], ['b', '.', 'w'], ['a', '.', 'v']] "e" false =
      .ok ([[(fileNameKey, ⟨['a']⟩), (captionPredictedKey, "x")],
            [(fileNameKey, ⟨['b']⟩), (captionPredictedKey, "")]],
           [[(fileNameKey, ⟨['a']⟩), (capKey 1, "x"), (capKey 2, "x")],
            [(fileNameKey, ⟨['b']⟩), (capKey 1, "x")]]) := by decide
  have hord := claim_C6.2 Nat inferInstance [[[1, 0]], [[0, 1]], [[1, 0]]]
    [[0, 1], [0, 1], [0, 1]] ["x", "e"]
    [['a', '.', 'w'], ['b', '.', 'w'], ['a', '.', 'v']] "e" false _ _ h
  exact ⟨claim_C6.1 Nat inferInstance _ _ _ _ _ _ _ _ _ _ _ _ rfl rfl rfl rfl
    rfl rfl, h, hord.1, hord.2⟩

/-- C4. A successful decode returns exactly one predicted record per
distinct file key, in first-appearance order, each holding `file_name` and
the `caption_predicted` taken from that key's first occurrence; the
ground-truth record of a key occurring `k` times holds `file_name` followed
by exactly `caption_1 .. caption_k` in order of occurrence. -/
theorem claim_C4 {α : Type} [inst : LinearOrder α] (indices : List String)
    (eos : String) (prs : List (List (List α))) (gts : List (List Nat))
    (fns : List (List Char)) (c : Bool) (cp cg : List Rec)
    (hl1 : gts.length = prs.length) (hl2 : prs.length = fns.length)
    (h : decodeOutputs prs gts indices fns eos c = .ok (cp, cg)) :
    cp = (firstAppearance (fns.map fileKey)).map
        (fun k => [(fileNameKey, k),
          (captionPredictedKey,
            predCaptionOf indices eos
              (prs.getD ((fns.map fileKey).indexOf k) []))]) ∧
    cg = (firstAppearance (fns.map fileKey)).map
        (fun k => gtShape k (gtCaps (specItems indices eos prs gts fns) k)) ∧
    ∀ k, k ∈ firstAppearance (fns.map fileKey) →
      (gtCaps (specItems indices eos prs gts fns) k).length =
        (fns.map fileKey).count k := by
  obtain ⟨hcp, hcg⟩ := decodeOutputs_spec indices eos prs gts fns c cp cg h
  have hkeys : histKeys (specItems indices eos prs gts fns) =
      fns.map fileKey := by
    rw [histKeys_specItems indices eos prs gts fns,
      usedFileKeys_eq_map prs gts fns hl1 hl2]
  subst hcp hcg
  refine ⟨?_, ?_, ?_⟩
  · rw [relCP, hkeys]
    refine List.map_congr_left (fun k hk => ?_)
    have hkmem : k ∈ fns.map fileKey := (mem_firstAppearance _ k).mp hk
    have hkhist : k ∈ histKeys (specItems indices eos prs gts fns) := by
      rw [hkeys]; exact hkmem
    have hj : (fns.map fileKey).indexOf k < prs.length := by
      have := List.indexOf_lt_length.mpr hkmem
      rw [List.length_map] at this
      omega
    rw [firstCaption_getD _ k ("", "", "") hkhist, hkeys,
      specItems_getD indices eos ("", "", "") prs gts fns _ hj hl1 hl2]
  · rw [relCG, hkeys]
  · intro k _
    rw [gtCaps_length_count, hkeys]

/-- Witness for C4 at the spec scenario `["a.wav", "b.wav", "a.wav"]`. -/
theorem claim_C4_witness :
    ([[0, 1], [0, 1], [0, 1]] : List (List Nat)).length =
      ([[[1, 0]], [[0, 1]], [[1, 0]]] : List (List (List Nat))).length ∧
    ([[[1, 0]], [[0, 1]], [[1, 0]]] : List (List (List Nat))).length =
      ([['a', '.', 'w', 'a', 'v'], ['b', '.', 'w', 'a', 'v'],
        ['a', '.', 'w', 'a', 'v']] : List (List Char)).length ∧
    decodeOutputs (α := Nat) [[[1, 0]], [[0, 1]], [[1, 0]]]
        [[0, 1], [0, 1], [0, 1]] ["x", "e"]
        [['a', '.', 'w', 'a', 'v'], ['b', '.', 'w', 'a', 'v'],
          ['a', '.', 'w', 'a', 'v']] "e" false =
      .ok ([[(fileNameKey, ⟨['a']⟩), (captionPredictedKey, "x")],
            [(fileNameKey, ⟨['b']⟩), (captionPredictedKey, "")]],
           [[(fileNameKey, ⟨['a']⟩), (capKey 1, "x"), (capKey 2, "x")],
            [(fileNameKey, ⟨['b']⟩), (capKey 1, "x")]]) ∧
    ([[(fileNameKey, ⟨['a']⟩), (captionPredictedKey, "x")],
      [(fileNameKey, ⟨['b']⟩), (captionPredictedKey, "")]] : List Rec) =
      (firstAppearance (([['a', '.', 'w', 'a', 'v'], ['b', '.', 'w', 'a', 'v'],
          ['a', '.', 'w', 'a', 'v']] : List (List Char)).map fileKey)).map
        (fun k => [(fileNameKey, k),
          (captionPredictedKey,
            predCaptionOf ["x", "e"] "e"
              (([[[1, 0]], [[0, 1]], [[1, 0]]] : List (List (List Nat))).getD
                ((([['a', '.', 'w', 'a', 'v'], ['b', '.', 'w', 'a', 'v'],
                  ['a', '.', 'w', 'a', 'v']] : List (List Char)).map
                    fileKey).indexOf k) []))]) ∧
    ([[(fileNameKey, ⟨['a']⟩), (capKey 1, "x"), (capKey 2, "x")],
      [(fileNameKey, ⟨['b']⟩), (capKey 1, "x")]] : List Rec) =
      (firstAppearance (([['a', '.', 'w', 'a', 'v'], ['b', '.', 'w', 'a', 'v'],
          ['a', '.', 'w', 'a', 'v']] : List (List Char)).map fileKey)).map
        (fun k => gtShape k
          (gtCaps (specItems ["x", "e"] "e"
            ([[[1, 0]], [[0, 1]], [[1, 0]]] : List (List (List Nat)))
            [[0, 1], [0, 1], [0, 1]]
            [['a', '.', 'w', 'a', 'v'], ['b', '.', 'w', 'a', 'v'],
              ['a', '.', 'w', 'a', 'v']]) k)) ∧
    ∀ k, k ∈ firstAppearance (([['a', '.', 'w', 'a', 'v'],
        ['b', '.', 'w', 'a', 'v'],
        ['a', '.', 'w', 'a', 'v']] : List (List Char)).map fileKey) →
      (gtCaps (specItems ["x", "e"] "e"
          ([[[1, 0]], [[0, 1]], [[1, 0]]] : List (List (List Nat)))
          [[0, 1], [0, 1], [0, 1]]
          [['a', '.', 'w', 'a', 'v'], ['b', '.', 'w', 'a', 'v'],
            ['a', '.', 'w', 'a', 'v']]) k).length =
        (([['a', '.', 'w', 'a', 'v'], ['b', '.', 'w', 'a', 'v'],
          ['a', '.', 'w', 'a', 'v']] : List (List Char)).map fileKey).count
          k := by
  have h : decodeOutputs (α := Nat) [[[1, 0]], [[0, 1]], [[1, 0]]]
      [[0, 1], [0, 1], [0, 1]] ["x", "e"]
      [['a', '.', 'w', 'a', 'v'], ['b', '.', 'w', 'a', 'v'],
        ['a', '.', 'w', 'a', 'v']] "e" false =
      .ok ([[(fileNameKey, ⟨['a']⟩), (captionPredictedKey, "x")],
            [(fileNameKey, ⟨['b']⟩), (captionPredictedKey, "")]],
           [[(fileNameKey, ⟨['a']⟩), (capKey 1, "x"), (capKey 2, "x")],
            [(fileNameKey, ⟨['b']⟩), (capKey 1, "x")]]) := by decide
  obtain ⟨h1, h2, h3⟩ := claim_C4 ["x", "e"] "e" [[[1, 0]], [[0, 1]], [[1, 0]]]
    [[0, 1], [0, 1], [0, 1]]
    [['a', '.', 'w', 'a', 'v'], ['b', '.', 'w', 'a', 'v'],
      ['a', '.', 'w', 'a', 'v']] false _ _ (by decide) (by decide) h
  exact ⟨by decide, by decide, h, h1, h2, h3⟩

end Method
